import Mathlib

/-!
Verification of the supervised execution wrapper (`safeRun`) of
node-script-utils.

The repository contains two implementations of `safeRun`:
  * `src/index.ts`   — hooks `onBefore`, `onAfter`, `onFail`, `onLast`,
    every hook guarded by `runHook` (errors logged and swallowed), a
    timeout race whose timer is never cleared, optional `process.exit`
    on failure.
  * `src/command.ts` — hooks `onBefore`, `onAfter`, `onFail` (no
    `onLast`), hooks invoked directly (unguarded), a timeout race whose
    timer is cleared in an inner `finally`, optional `process.exit`.

We embed both as pure functions from the behaviour of the supplied
callback and the option record to a result consisting of the terminal
outcome, the trace of observable events (hook invocations, hook-error
logging, timer scheduling/clearing, callback start, process exit) and
whether a scheduled timer is still pending when the returned promise
settles.
-/

namespace NodeScriptUtils

/-- A JavaScript `Error` value as observed by `safeRun`: its `name`, its
`message`, and — for the `TimeoutError` subclass — the carried
`timeoutMs` field (`none` for ordinary errors). -/
structure Err where
  name : String
  message : String
  timeoutMs : Option Int
deriving DecidableEq, Repr

/-- A value thrown/rejected in JavaScript: either an `Error` instance or
some other value, recorded by its string form `String(value)`. -/
inductive Thrown where
  | errVal (e : Err)
  | other (s : String)
deriving DecidableEq, Repr

/-- The value `new TimeoutError(\x60Operation timed out after ${ms}ms\x60, ms)` as
constructed by `createTimeoutPromise` in both files: name
`"TimeoutError"`, the interpolated message, and the duration stored in
the `timeoutMs` field. -/
def timeoutError (ms : Int) : Err :=
  ⟨"TimeoutError", "Operation timed out after " ++ toString ms ++ "ms", some ms⟩

/-- The step `error instanceof Error ? error : new Error(String(error))` — the
capture step at the top of both `catch` blocks. -/
def toError : Thrown → Err
  | .errVal e => e
  | .other s => ⟨"Error", s, none⟩

/-- Behaviour of the supplied main callback: it resolves at some time
(milliseconds), rejects at some time with a thrown value, or never
settles. -/
inductive CbBehavior where
  | resolves (time : Nat)
  | rejects (time : Nat) (v : Thrown)
  | hangs
deriving DecidableEq, Repr

/-- Behaviour of a hook callback: it completes normally or throws. -/
inductive HookBehavior where
  | ok
  | throws (v : Thrown)
deriving DecidableEq, Repr

/-- A hook as passed by the caller: its declared parameter count
(JavaScript `hook.length`, tested by `runHook`) and its behaviour. -/
structure Hook where
  arity : Nat
  behavior : HookBehavior
deriving DecidableEq, Repr

/-- The four lifecycle hook positions. -/
inductive HookKind where
  | before
  | after
  | fail
  | last
deriving DecidableEq, Repr

/-- Observable events during one `safeRun` invocation. -/
inductive Event where
  /-- A hook was invoked, with the argument it received (`some e` when
  the error was passed to it). -/
  | hookCalled (k : HookKind) (arg : Option Err)
  /-- The call `console.error("Hook execution failed:", hookError)` inside
  `runHook` in `src/index.ts`. -/
  | hookErrLogged (k : HookKind) (v : Thrown)
  /-- The main callback was invoked. -/
  | cbStarted
  /-- The call to `setTimeout` scheduled the timer for `ms` milliseconds. -/
  | timerSet (ms : Int)
  /-- The call `clearTimeout` was made on the timer (only `src/command.ts`
  does this, via the `clear` closure). -/
  | timerCleared (ms : Int)
  /-- The call `process.exit(code)` was invoked. -/
  | exitCalled (code : Int)
deriving DecidableEq, Repr

/-- Terminal outcome of one `safeRun` invocation: the returned promise
resolves, rejects with a thrown value, the process exits with a code,
or the promise never settles (callback hangs with no timeout). -/
inductive Outcome where
  | resolved
  | rejected (v : Thrown)
  | exited (code : Int)
  | hangs
deriving DecidableEq, Repr

/-- Result of running the model: outcome, event trace in order, and
whether a scheduled timer is still pending when the call settles. -/
structure RunResult where
  outcome : Outcome
  events : List Event
  timerPending : Bool
deriving DecidableEq, Repr

/-- Option record of `safeRun` in `src/index.ts` (`SafeRunOptions`).
`none` models an omitted property; the defaults `exitOnFailed = false`
and `exitFailCode = 1` are applied by the destructuring in `safeRun`. -/
structure SafeRunOptions where
  onBefore : Option Hook := none
  onAfter : Option Hook := none
  onFail : Option Hook := none
  onLast : Option Hook := none
  exitOnFailed : Option Bool := none
  exitFailCode : Option Int := none
  timeoutMs : Option Int := none
deriving DecidableEq, Repr

/-- Option record of `safeRun` in `src/command.ts`: same shape but with
no `onLast` member. -/
structure CmdSafeRunOptions where
  onBefore : Option Hook := none
  onAfter : Option Hook := none
  onFail : Option Hook := none
  exitOnFailed : Option Bool := none
  exitFailCode : Option Int := none
  timeoutMs : Option Int := none
deriving DecidableEq, Repr

/-- The `timeoutMs && timeoutMs > 0` test of both implementations:
a timeout is enforced only when the option is present and positive
(`0` is falsy; negative values fail the `> 0` comparison). -/
def timeoutActive : Option Int → Bool
  | some t => t > 0
  | none => false

/-- The guard `runHook` from `src/index.ts`: a missing hook is a no-op; when an
error argument is supplied and the hook declares at least one parameter
(`hook.length > 0`) the error is passed, otherwise the hook is called
with no argument; an error thrown by the hook is caught and logged,
never re-raised. Returns the emitted events. -/
def runHook (k : HookKind) (hook : Option Hook) (error : Option Err) :
    List Event :=
  match hook with
  | none => []
  | some h =>
    let arg : Option Err :=
      match error with
      | some e => if h.arity > 0 then some e else none
      | none => none
    match h.behavior with
    | .ok => [Event.hookCalled k arg]
    | .throws v => [Event.hookCalled k arg, Event.hookErrLogged k v]

/-- Result of awaiting the main callback (possibly raced against the
timeout): normal completion, a thrown value, or never settles. -/
inductive AwaitResult where
  | ok
  | thrown (v : Thrown)
  | never
deriving DecidableEq, Repr

/-- The `await` step of `src/index.ts`:
`if (timeoutMs && timeoutMs > 0) await Promise.race([callback(),
createTimeoutPromise(timeoutMs)]); else await callback();`.
The callback is invoked first, then the timer is scheduled; the race is
won by whichever settles first (the callback wins when it settles
strictly before `timeoutMs`); the timer is never cleared. -/
def awaitIndex (cb : CbBehavior) (timeoutMs : Option Int) :
    List Event × AwaitResult :=
  match timeoutMs with
  | some t =>
    if t > 0 then
      let evs := [Event.cbStarted, Event.timerSet t]
      match cb with
      | .resolves s =>
          if (s : Int) < t then (evs, .ok)
          else (evs, .thrown (.errVal (timeoutError t)))
      | .rejects s v =>
          if (s : Int) < t then (evs, .thrown v)
          else (evs, .thrown (.errVal (timeoutError t)))
      | .hangs => (evs, .thrown (.errVal (timeoutError t)))
    else
      match cb with
      | .resolves _ => ([Event.cbStarted], .ok)
      | .rejects _ v => ([Event.cbStarted], .thrown v)
      | .hangs => ([Event.cbStarted], .never)
  | none =>
    match cb with
    | .resolves _ => ([Event.cbStarted], .ok)
    | .rejects _ v => ([Event.cbStarted], .thrown v)
    | .hangs => ([Event.cbStarted], .never)

/-- Whether, after the `src/index.ts` race, the scheduled timer is still
pending when `safeRun` settles: `createTimeoutPromise` there exposes no
cancellation and `safeRun` never calls `clearTimeout`, so whenever the
callback settles strictly before the configured duration, the timer
remains scheduled. -/
def pendingIndex (cb : CbBehavior) (timeoutMs : Option Int) : Bool :=
  match timeoutMs with
  | some t =>
    if t > 0 then
      match cb with
      | .resolves s => (s : Int) < t
      | .rejects s _ => (s : Int) < t
      | .hangs => false
    else false
  | none => false

/-- The function `safeRun` from `src/index.ts`, lines 134–213. Control flow:
`try { await runHook(onBefore); await <race or callback>; await
runHook(onAfter); } catch (error) { mainError = toError(error); await
runHook(onFail, mainError); if (exitOnFailed) process.exit(exitFailCode);
throw mainError; } finally { await runHook(onLast); }` —
`process.exit` terminates synchronously, so neither the re-throw nor
the `finally` block runs on the exit path; a hanging await means the
promise never settles and the `finally` block never runs. -/
def safeRunIndex (cb : CbBehavior) (options : SafeRunOptions) : RunResult :=
  let exitOnFailed := options.exitOnFailed.getD false
  let exitFailCode := options.exitFailCode.getD 1
  let beforeEvs := runHook .before options.onBefore none
  match awaitIndex cb options.timeoutMs with
  | (cbEvs, res) =>
    match res with
    | .never => ⟨.hangs, beforeEvs ++ cbEvs, false⟩
    | .ok =>
      let afterEvs := runHook .after options.onAfter none
      let lastEvs := runHook .last options.onLast none
      ⟨.resolved, beforeEvs ++ cbEvs ++ afterEvs ++ lastEvs,
        pendingIndex cb options.timeoutMs⟩
    | .thrown v =>
      let e := toError v
      let failEvs := runHook .fail options.onFail (some e)
      if exitOnFailed then
        ⟨.exited exitFailCode,
          beforeEvs ++ cbEvs ++ failEvs ++ [Event.exitCalled exitFailCode],
          pendingIndex cb options.timeoutMs⟩
      else
        let lastEvs := runHook .last options.onLast none
        ⟨.rejected (.errVal e),
          beforeEvs ++ cbEvs ++ failEvs ++ lastEvs,
          pendingIndex cb options.timeoutMs⟩

/-- The `await` step of `src/command.ts`: the timer promise is created
first (`const { timeoutPromise, clear } = createTimeoutPromise(timeoutMs)`),
then `Promise.race([callback(), timeoutPromise])` runs inside
`try { ... } finally { clear(); }`, so `clearTimeout` is called as soon
as the race settles, on both the win and the lose path. -/
def awaitCmd (cb : CbBehavior) (timeoutMs : Option Int) :
    List Event × AwaitResult :=
  match timeoutMs with
  | some t =>
    if t > 0 then
      let evs := [Event.timerSet t, Event.cbStarted]
      match cb with
      | .resolves s =>
          if (s : Int) < t then (evs ++ [Event.timerCleared t], .ok)
          else (evs ++ [Event.timerCleared t], .thrown (.errVal (timeoutError t)))
      | .rejects s v =>
          if (s : Int) < t then (evs ++ [Event.timerCleared t], .thrown v)
          else (evs ++ [Event.timerCleared t], .thrown (.errVal (timeoutError t)))
      | .hangs => (evs ++ [Event.timerCleared t], .thrown (.errVal (timeoutError t)))
    else
      match cb with
      | .resolves _ => ([Event.cbStarted], .ok)
      | .rejects _ v => ([Event.cbStarted], .thrown v)
      | .hangs => ([Event.cbStarted], .never)
  | none =>
    match cb with
    | .resolves _ => ([Event.cbStarted], .ok)
    | .rejects _ v => ([Event.cbStarted], .thrown v)
    | .hangs => ([Event.cbStarted], .never)

/-- The `catch` block of `safeRun` in `src/command.ts`:
`mainError = error instanceof Error ? error : new Error(String(error));
if (onFail) await onFail(mainError); if (exitOnFailed)
process.exit(exitFailCode); throw mainError;` — the `onFail` call is
not guarded, so a value it throws propagates out of `safeRun` in place
of `mainError` and skips the exit check. `pre` is the trace emitted
before the throw reached the catch. -/
def cmdCatch (options : CmdSafeRunOptions) (pre : List Event) (v : Thrown) :
    RunResult :=
  let exitOnFailed := options.exitOnFailed.getD false
  let exitFailCode := options.exitFailCode.getD 1
  let e := toError v
  match options.onFail with
  | some h =>
    let callEv := Event.hookCalled .fail (some e)
    match h.behavior with
    | .throws hv => ⟨.rejected hv, pre ++ [callEv], false⟩
    | .ok =>
      if exitOnFailed then
        ⟨.exited exitFailCode, pre ++ [callEv, Event.exitCalled exitFailCode],
          false⟩
      else
        ⟨.rejected (.errVal e), pre ++ [callEv], false⟩
  | none =>
    if exitOnFailed then
      ⟨.exited exitFailCode, pre ++ [Event.exitCalled exitFailCode], false⟩
    else
      ⟨.rejected (.errVal e), pre, false⟩

/-- The function `safeRun` from `src/command.ts`, lines 366–418. Control flow:
`try { if (onBefore) await onBefore(); <race with clear, or callback>;
if (onAfter) await onAfter(); } catch (error) { <cmdCatch> }` — there
is no `runHook` guard and no `onLast` hook: a throwing `onBefore`
aborts the run before the callback starts, and a throwing `onAfter`
turns a success into the failure path. The timer, when set, is always
cleared, so no timer is ever left pending. -/
def safeRunCommand (cb : CbBehavior) (options : CmdSafeRunOptions) :
    RunResult :=
  let beforeStep : List Event × Option Thrown :=
    match options.onBefore with
    | none => ([], none)
    | some h =>
      match h.behavior with
      | .ok => ([Event.hookCalled .before none], none)
      | .throws v => ([Event.hookCalled .before none], some v)
  match beforeStep with
  | (beforeEvs, some v) => cmdCatch options beforeEvs v
  | (beforeEvs, none) =>
    match awaitCmd cb options.timeoutMs with
    | (cbEvs, res) =>
      match res with
      | .never => ⟨.hangs, beforeEvs ++ cbEvs, false⟩
      | .thrown v => cmdCatch options (beforeEvs ++ cbEvs) v
      | .ok =>
        match options.onAfter with
        | none => ⟨.resolved, beforeEvs ++ cbEvs, false⟩
        | some h =>
          match h.behavior with
          | .ok =>
            ⟨.resolved, beforeEvs ++ cbEvs ++ [Event.hookCalled .after none],
              false⟩
          | .throws v =>
            cmdCatch options
              (beforeEvs ++ cbEvs ++ [Event.hookCalled .after none]) v

/-! ### Trace observations used by the claims -/

/-- Whether an event is an invocation of the hook at position `k`. -/
def isHookCall (k : HookKind) : Event → Bool
  | .hookCalled k2 _ => k2 == k
  | _ => false

/-- Number of invocations of the hook at position `k` in a trace. -/
def hookCallCount (k : HookKind) (evs : List Event) : Nat :=
  (evs.filter (isHookCall k)).length

/-- Whether an event schedules a timeout timer. -/
def isTimerSet : Event → Bool
  | .timerSet _ => true
  | _ => false

/-- Whether an event is a hook invocation or a process exit — the
caller-visible actions compared by the refinement claim. -/
def isHookOrExit : Event → Bool
  | .hookCalled _ _ => true
  | .exitCalled _ => true
  | _ => false

/-- The subtrace of hook invocations and process exits. -/
def hookObs (evs : List Event) : List Event :=
  evs.filter isHookOrExit

/-- Whether a callback settling at time `s` beats the configured
timeout: always, when no timeout is enforced; otherwise exactly when
`s` is strictly below the configured duration. -/
def beatsTimeout (s : Nat) (timeoutMs : Option Int) : Bool :=
  match timeoutMs with
  | some t => if t > 0 then (s : Int) < t else true
  | none => true

/-- Whether the invocation settles at all: the only non-settling case
is a hanging callback with no enforced timeout. -/
def runSettles (cb : CbBehavior) (timeoutMs : Option Int) : Bool :=
  match cb with
  | .hangs => timeoutActive timeoutMs
  | _ => true

/-- Whether the callback fails before any enforced timeout fires:
it rejects at a time that beats the timeout. -/
def cbFailsBeforeTimeout (cb : CbBehavior) (timeoutMs : Option Int) : Bool :=
  match cb with
  | .rejects s _ => beatsTimeout s timeoutMs
  | _ => false

/-- Whether the callback does not settle within an enforced timeout:
it hangs, or settles only at or after the configured duration. -/
def cbMissesTimeout (cb : CbBehavior) (t : Int) : Bool :=
  match cb with
  | .resolves s => (s : Int) ≥ t
  | .rejects s _ => (s : Int) ≥ t
  | .hangs => true

/-! ### Helper lemmas about traces -/

theorem hookCallCount_append (k : HookKind) (a b : List Event) :
    hookCallCount k (a ++ b) = hookCallCount k a + hookCallCount k b := by
  simp [hookCallCount, List.filter_append]

theorem hookCallCount_runHook_ne (k k2 : HookKind) (h : Option Hook)
    (e : Option Err) (hne : k2 ≠ k) : hookCallCount k (runHook k2 h e) = 0 := by
  cases h with
  | none => rfl
  | some hh =>
    obtain ⟨ar, b⟩ := hh
    have hb : (k2 == k) = false := by
      simp [hne]
    cases b <;>
      simp [runHook, hookCallCount, isHookCall, List.filter, hb]

theorem hookCallCount_runHook_self (k : HookKind) (hh : Hook) (e : Option Err) :
    hookCallCount k (runHook k (some hh) e) = 1 := by
  obtain ⟨ar, b⟩ := hh
  cases b <;>
    simp [runHook, hookCallCount, isHookCall, List.filter]

theorem hookCallCount_runHook_none (k k2 : HookKind) (e : Option Err) :
    hookCallCount k (runHook k2 none e) = 0 := rfl

theorem count_hookCalled_runHook_ne (k k2 : HookKind) (arg : Option Err)
    (h : Option Hook) (e : Option Err) (hne : k2 ≠ k) :
    (runHook k2 h e).count (Event.hookCalled k arg) = 0 := by
  cases h with
  | none => rfl
  | some hh =>
    obtain ⟨ar, b⟩ := hh
    cases b <;>
      simp [runHook, List.count_cons, hne, Ne.symm hne]

theorem hookCallCount_nil (k : HookKind) : hookCallCount k [] = 0 := rfl

theorem hookCallCount_cbTimer (k : HookKind) (t : Int) :
    hookCallCount k [Event.cbStarted, Event.timerSet t] = 0 := rfl

theorem hookCallCount_cbOnly (k : HookKind) :
    hookCallCount k [Event.cbStarted] = 0 := rfl

theorem hookCallCount_cons_cbStarted (k : HookKind) (l : List Event) :
    hookCallCount k (Event.cbStarted :: l) = hookCallCount k l := by
  simp [hookCallCount, List.filter, isHookCall]

theorem hookCallCount_cons_timerSet (k : HookKind) (t : Int)
    (l : List Event) :
    hookCallCount k (Event.timerSet t :: l) = hookCallCount k l := by
  simp [hookCallCount, List.filter, isHookCall]

theorem hookCallCount_cons_timerCleared (k : HookKind) (t : Int)
    (l : List Event) :
    hookCallCount k (Event.timerCleared t :: l) = hookCallCount k l := by
  simp [hookCallCount, List.filter, isHookCall]

theorem hookCallCount_cons_exitCalled (k : HookKind) (c : Int)
    (l : List Event) :
    hookCallCount k (Event.exitCalled c :: l) = hookCallCount k l := by
  simp [hookCallCount, List.filter, isHookCall]

theorem timerSet_filter_runHook (k : HookKind) (h : Option Hook)
    (e : Option Err) : (runHook k h e).filter isTimerSet = [] := by
  cases h with
  | none => rfl
  | some hh =>
    obtain ⟨ar, b⟩ := hh
    cases b <;> simp [runHook, isTimerSet, List.filter]

theorem count_hookCalled_runHook_self (k : HookKind) (hh : Hook) (e : Err)
    (har : hh.arity > 0) :
    (runHook k (some hh) (some e)).count (Event.hookCalled k (some e)) = 1 := by
  obtain ⟨ar, b⟩ := hh
  cases b <;> simp [runHook, List.count_cons, har]

theorem beatsTimeout_of_inactive (s : Nat) (tms : Option Int)
    (h : timeoutActive tms = false) : beatsTimeout s tms = true := by
  rcases tms with _ | t
  · rfl
  · have hpos : ¬ t > 0 := by simpa [timeoutActive] using h
    simp [beatsTimeout, hpos]

/-! ### Path lemmas for the `src/index.ts` runner -/

theorem hookCallCount_awaitIndex (k : HookKind) (cb : CbBehavior)
    (tms : Option Int) : hookCallCount k (awaitIndex cb tms).1 = 0 := by
  rcases tms with _ | t
  · cases cb <;> simp [awaitIndex, hookCallCount, isHookCall, List.filter]
  · by_cases hpos : t > 0 <;>
      cases cb <;>
        simp [awaitIndex, hookCallCount, isHookCall, List.filter, hpos] <;>
          split <;> simp

theorem count_hookCalled_awaitIndex (k : HookKind) (arg : Option Err)
    (cb : CbBehavior) (tms : Option Int) :
    (awaitIndex cb tms).1.count (Event.hookCalled k arg) = 0 := by
  rcases tms with _ | t
  · cases cb <;> simp [awaitIndex]
  · by_cases hpos : t > 0 <;>
      cases cb <;> simp [awaitIndex, hpos] <;> split <;> simp

theorem timerSet_filter_awaitIndex_inactive (cb : CbBehavior)
    (tms : Option Int) (h : timeoutActive tms = false) :
    ((awaitIndex cb tms).1).filter isTimerSet = [] := by
  rcases tms with _ | t
  · cases cb <;> simp [awaitIndex, isTimerSet, List.filter]
  · have hpos : ¬ t > 0 := by simpa [timeoutActive] using h
    cases cb <;> simp [awaitIndex, isTimerSet, List.filter, hpos]

theorem awaitIndex_snd_resolves_beats (s : Nat) (tms : Option Int)
    (hbeats : beatsTimeout s tms = true) :
    (awaitIndex (.resolves s) tms).2 = .ok := by
  rcases tms with _ | t
  · simp [awaitIndex]
  · by_cases hpos : t > 0
    · have hlt : (s : Int) < t := by
        simpa [beatsTimeout, hpos] using hbeats
      simp [awaitIndex, hpos, hlt]
    · simp [awaitIndex, hpos]

theorem awaitIndex_snd_rejects_beats (s : Nat) (v : Thrown)
    (tms : Option Int) (hbeats : beatsTimeout s tms = true) :
    (awaitIndex (.rejects s v) tms).2 = .thrown v := by
  rcases tms with _ | t
  · simp [awaitIndex]
  · by_cases hpos : t > 0
    · have hlt : (s : Int) < t := by
        simpa [beatsTimeout, hpos] using hbeats
      simp [awaitIndex, hpos, hlt]
    · simp [awaitIndex, hpos]

theorem awaitIndex_snd_never (tms : Option Int)
    (h : timeoutActive tms = false) :
    (awaitIndex .hangs tms).2 = .never := by
  rcases tms with _ | t
  · simp [awaitIndex]
  · have hpos : ¬ t > 0 := by simpa [timeoutActive] using h
    simp [awaitIndex, hpos]

/-- On a normal completion of the awaited step, `safeRun` from
`src/index.ts` resolves and runs the `before`, `after` and `last` hooks
around the callback events. -/
theorem safeRunIndex_ok (options : SafeRunOptions) (cb : CbBehavior)
    (hok : (awaitIndex cb options.timeoutMs).2 = .ok) :
    safeRunIndex cb options =
      ⟨.resolved,
        runHook .before options.onBefore none ++
          (awaitIndex cb options.timeoutMs).1 ++
          runHook .after options.onAfter none ++
          runHook .last options.onLast none,
        pendingIndex cb options.timeoutMs⟩ := by
  rcases h : awaitIndex cb options.timeoutMs with ⟨evs, res⟩
  have hres : res = .ok := by rw [h] at hok; exact hok
  subst hres
  simp [safeRunIndex, h]

/-- On a thrown value with `exitOnFailed` false, `safeRun` from
`src/index.ts` rejects with the captured error after running the
`before`, `fail` and `last` hooks. -/
theorem safeRunIndex_thrown (options : SafeRunOptions) (cb : CbBehavior)
    (v : Thrown) (hth : (awaitIndex cb options.timeoutMs).2 = .thrown v)
    (hexit : options.exitOnFailed.getD false = false) :
    safeRunIndex cb options =
      ⟨.rejected (.errVal (toError v)),
        runHook .before options.onBefore none ++
          (awaitIndex cb options.timeoutMs).1 ++
          runHook .fail options.onFail (some (toError v)) ++
          runHook .last options.onLast none,
        pendingIndex cb options.timeoutMs⟩ := by
  rcases h : awaitIndex cb options.timeoutMs with ⟨evs, res⟩
  have hres : res = .thrown v := by rw [h] at hth; exact hth
  subst hres
  simp [safeRunIndex, h, hexit]

/-- On a thrown value with `exitOnFailed` true, `safeRun` from
`src/index.ts` calls `process.exit` after the `fail` hook; neither the
re-throw nor the `finally` block (the `last` hook) runs. -/
theorem safeRunIndex_thrown_exit (options : SafeRunOptions)
    (cb : CbBehavior) (v : Thrown)
    (hth : (awaitIndex cb options.timeoutMs).2 = .thrown v)
    (hexit : options.exitOnFailed.getD false = true) :
    safeRunIndex cb options =
      ⟨.exited (options.exitFailCode.getD 1),
        runHook .before options.onBefore none ++
          (awaitIndex cb options.timeoutMs).1 ++
          runHook .fail options.onFail (some (toError v)) ++
          [Event.exitCalled (options.exitFailCode.getD 1)],
        pendingIndex cb options.timeoutMs⟩ := by
  rcases h : awaitIndex cb options.timeoutMs with ⟨evs, res⟩
  have hres : res = .thrown v := by rw [h] at hth; exact hth
  subst hres
  simp [safeRunIndex, h, hexit]

/-- On a never-settling await, `safeRun` from `src/index.ts` never
settles: only the `before` hook and callback start are observed. -/
theorem safeRunIndex_never (options : SafeRunOptions) (cb : CbBehavior)
    (hnv : (awaitIndex cb options.timeoutMs).2 = .never) :
    safeRunIndex cb options =
      ⟨.hangs,
        runHook .before options.onBefore none ++
          (awaitIndex cb options.timeoutMs).1,
        false⟩ := by
  rcases h : awaitIndex cb options.timeoutMs with ⟨evs, res⟩
  have hres : res = .never := by rw [h] at hnv; exact hnv
  subst hres
  simp [safeRunIndex, h]

theorem awaitIndex_snd_misses (cb : CbBehavior) (t : Int)
    (hpos : t > 0) (hmiss : cbMissesTimeout cb t = true) :
    (awaitIndex cb (some t)).2 = .thrown (.errVal (timeoutError t)) := by
  cases cb with
  | resolves s =>
    have hs : ¬ ((s : Int) < t) := by
      simp [cbMissesTimeout] at hmiss
      omega
    simp [awaitIndex, hpos, hs]
  | rejects s v =>
    have hs : ¬ ((s : Int) < t) := by
      simp [cbMissesTimeout] at hmiss
      omega
    simp [awaitIndex, hpos, hs]
  | hangs => simp [awaitIndex, hpos]

theorem awaitIndex_snd_ne_never (cb : CbBehavior) (tms : Option Int)
    (h : runSettles cb tms = true) : (awaitIndex cb tms).2 ≠ .never := by
  rcases tms with _ | t
  · cases cb <;> simp_all [awaitIndex, runSettles, timeoutActive]
  · by_cases hpos : t > 0
    · cases cb with
      | resolves s =>
        simp only [awaitIndex, hpos, if_true]
        split <;> simp
      | rejects s v =>
        simp only [awaitIndex, hpos, if_true]
        split <;> simp
      | hangs => simp [awaitIndex, hpos]
    · cases cb with
      | resolves s => simp [awaitIndex, if_neg hpos]
      | rejects s v => simp [awaitIndex, if_neg hpos]
      | hangs =>
        exfalso
        simp [runSettles, timeoutActive] at h
        omega

theorem cbStarted_mem_awaitIndex (cb : CbBehavior) (tms : Option Int) :
    Event.cbStarted ∈ (awaitIndex cb tms).1 := by
  rcases tms with _ | t
  · cases cb <;> simp [awaitIndex]
  · by_cases hpos : t > 0 <;> cases cb <;>
      simp [awaitIndex, hpos] <;> split <;> simp

/-- The hook configuration of `safeRun` (src/index.ts) never influences
the outcome: every hook runs under the `runHook` guard, so whatever the
hooks do, the resolution/rejection/exit/hang status and its value stay
those determined by the callback, the timeout, and the exit options. -/
theorem safeRunIndex_outcome_hooks_indep (cb : CbBehavior)
    (b a f l b2 a2 f2 l2 : Option Hook) (eo : Option Bool)
    (ec tm : Option Int) :
    (safeRunIndex cb ⟨b, a, f, l, eo, ec, tm⟩).outcome =
      (safeRunIndex cb ⟨b2, a2, f2, l2, eo, ec, tm⟩).outcome := by
  rcases hr : awaitIndex cb tm with ⟨evs, res⟩
  cases res with
  | ok =>
    have hok : (awaitIndex cb tm).2 = .ok := by rw [hr]
    rw [safeRunIndex_ok ⟨b, a, f, l, eo, ec, tm⟩ cb hok,
      safeRunIndex_ok ⟨b2, a2, f2, l2, eo, ec, tm⟩ cb hok]
  | thrown v =>
    have hth : (awaitIndex cb tm).2 = .thrown v := by rw [hr]
    cases hex : eo.getD false with
    | false =>
      rw [safeRunIndex_thrown ⟨b, a, f, l, eo, ec, tm⟩ cb v hth hex,
        safeRunIndex_thrown ⟨b2, a2, f2, l2, eo, ec, tm⟩ cb v hth hex]
    | true =>
      rw [safeRunIndex_thrown_exit ⟨b, a, f, l, eo, ec, tm⟩ cb v hth hex,
        safeRunIndex_thrown_exit ⟨b2, a2, f2, l2, eo, ec, tm⟩ cb v hth hex]
  | never =>
    have hnv : (awaitIndex cb tm).2 = .never := by rw [hr]
    rw [safeRunIndex_never ⟨b, a, f, l, eo, ec, tm⟩ cb hnv,
      safeRunIndex_never ⟨b2, a2, f2, l2, eo, ec, tm⟩ cb hnv]

theorem cbStarted_mem_safeRunIndex (cb : CbBehavior)
    (options : SafeRunOptions) :
    Event.cbStarted ∈ (safeRunIndex cb options).events := by
  have hm := cbStarted_mem_awaitIndex cb options.timeoutMs
  rcases hr : awaitIndex cb options.timeoutMs with ⟨evs, res⟩
  cases res with
  | ok =>
    rw [safeRunIndex_ok options cb (by rw [hr])]
    simp [List.mem_append, hm]
  | thrown v =>
    cases hex : options.exitOnFailed.getD false with
    | false =>
      rw [safeRunIndex_thrown options cb v (by rw [hr]) hex]
      simp [List.mem_append, hm]
    | true =>
      rw [safeRunIndex_thrown_exit options cb v (by rw [hr]) hex]
      simp [List.mem_append, hm]
  | never =>
    rw [safeRunIndex_never options cb (by rw [hr])]
    simp [List.mem_append, hm]

/-! ### Claim theorems -/

/-- C1: when a timeout `t > 0` is configured and the callback neither
resolves nor rejects before `t` elapses, `safeRun` (src/index.ts, with
`exitOnFailed` defaulted/false) rejects with the `TimeoutError` whose
`timeoutMs` field equals the configured duration; a later completion of
the callback (settling at or after `t`) does not alter this outcome,
and the `onAfter` hook is never invoked. -/
theorem C1_timeout_failure (cb : CbBehavior) (options : SafeRunOptions)
    (t : Int) (ht : options.timeoutMs = some t) (htpos : t > 0)
    (hmiss : cbMissesTimeout cb t = true)
    (hexit : options.exitOnFailed.getD false = false) :
    (safeRunIndex cb options).outcome =
      .rejected (.errVal (timeoutError t)) ∧
    (timeoutError t).timeoutMs = some t ∧
    hookCallCount .after (safeRunIndex cb options).events = 0 := by
  have hb := hookCallCount_runHook_ne .after .before options.onBefore none
    (by decide)
  have hf := hookCallCount_runHook_ne .after .fail options.onFail
    (some (timeoutError t)) (by decide)
  have hl := hookCallCount_runHook_ne .after .last options.onLast none
    (by decide)
  refine ⟨?_, rfl, ?_⟩ <;>
  · cases cb with
    | resolves s =>
      have hs : ¬ ((s : Int) < t) := by
        simp [cbMissesTimeout] at hmiss
        omega
      simp [safeRunIndex, awaitIndex, ht, htpos, hs, hexit, toError,
        hookCallCount_append, hb, hf, hl, hookCallCount_cbTimer,
        hookCallCount_cbOnly, hookCallCount_cons_cbStarted,
        hookCallCount_cons_timerSet]
    | rejects s v =>
      have hs : ¬ ((s : Int) < t) := by
        simp [cbMissesTimeout] at hmiss
        omega
      simp [safeRunIndex, awaitIndex, ht, htpos, hs, hexit, toError,
        hookCallCount_append, hb, hf, hl, hookCallCount_cbTimer,
        hookCallCount_cbOnly, hookCallCount_cons_cbStarted,
        hookCallCount_cons_timerSet]
    | hangs =>
      simp [safeRunIndex, awaitIndex, ht, htpos, hexit, toError,
        hookCallCount_append, hb, hf, hl, hookCallCount_cbTimer,
        hookCallCount_cbOnly, hookCallCount_cons_cbStarted,
        hookCallCount_cons_timerSet]

/-- Witness for C1 at a concrete input: callback that only resolves at
150 ms against a 50 ms timeout, with an `onAfter` hook supplied. -/
theorem C1_timeout_failure_witness :
    (safeRunIndex (.resolves 150)
        { onAfter := some ⟨0, .ok⟩, timeoutMs := some 50 }).outcome =
      .rejected (.errVal (timeoutError 50)) ∧
    (timeoutError 50).timeoutMs = some 50 ∧
    hookCallCount .after
      (safeRunIndex (.resolves 150)
        { onAfter := some ⟨0, .ok⟩, timeoutMs := some 50 }).events = 0 := by
  have h := C1_timeout_failure (.resolves 150)
    { onAfter := some ⟨0, .ok⟩, timeoutMs := some 50 } 50 rfl
    (by decide) (by decide) (by decide)
  exact h

/-- C2: for a callback that throws or rejects (before any enforced
timeout) with `exitOnFailed` false, `safeRun` (src/index.ts) invokes
the supplied `onFail` hook (declared with an error parameter) exactly
once with the captured error, then rejects with that same error; an
`Error` cause is preserved as-is and a non-`Error` thrown value is
wrapped into a generic `Error` carrying its string form. -/
theorem C2_failure_onFail (options : SafeRunOptions) (s : Nat) (v : Thrown)
    (hbeats : beatsTimeout s options.timeoutMs = true)
    (hexit : options.exitOnFailed.getD false = false)
    (hf : Hook) (hfail : options.onFail = some hf) (har : hf.arity > 0) :
    hookCallCount .fail (safeRunIndex (.rejects s v) options).events = 1 ∧
    ((safeRunIndex (.rejects s v) options).events.count
        (Event.hookCalled .fail (some (toError v))) = 1) ∧
    (safeRunIndex (.rejects s v) options).outcome =
      .rejected (.errVal (toError v)) ∧
    (∀ e, v = .errVal e → toError v = e) ∧
    (∀ str, v = .other str → toError v = Err.mk "Error" str none) := by
  have hrun := safeRunIndex_thrown options (.rejects s v) v
    (awaitIndex_snd_rejects_beats s v options.timeoutMs hbeats) hexit
  rw [hrun]
  have c1 := hookCallCount_runHook_ne .fail .before options.onBefore none
    (by decide)
  have c2 := hookCallCount_awaitIndex .fail (.rejects s v) options.timeoutMs
  have c3 := hookCallCount_runHook_self .fail hf (some (toError v))
  have c4 := hookCallCount_runHook_ne .fail .last options.onLast none
    (by decide)
  have d1 := count_hookCalled_runHook_ne .fail .before (some (toError v))
    options.onBefore none (by decide)
  have d2 := count_hookCalled_awaitIndex .fail (some (toError v))
    (.rejects s v) options.timeoutMs
  have d3 := count_hookCalled_runHook_self .fail hf (toError v) har
  have d4 := count_hookCalled_runHook_ne .fail .last (some (toError v))
    options.onLast none (by decide)
  refine ⟨?_, ?_, rfl, ?_, ?_⟩
  · simp [hookCallCount_append, c1, c2, c4, hfail, c3]
  · simp [List.count_append, d1, d2, d4, hfail, d3]
  · intro e he
    subst he
    rfl
  · intro str hstr
    subst hstr
    rfl

/-- Witness for C2 at a concrete input: callback that rejects at once
with a non-`Error` value, an `onFail` hook of arity 1, no timeout. -/
theorem C2_failure_onFail_witness :
    hookCallCount .fail
      (safeRunIndex (.rejects 0 (.other "boom"))
        { onFail := some ⟨1, .ok⟩ }).events = 1 ∧
    ((safeRunIndex (.rejects 0 (.other "boom"))
        { onFail := some ⟨1, .ok⟩ }).events.count
      (Event.hookCalled .fail (some (toError (.other "boom")))) = 1) ∧
    (safeRunIndex (.rejects 0 (.other "boom"))
        { onFail := some ⟨1, .ok⟩ }).outcome =
      .rejected (.errVal (toError (.other "boom"))) ∧
    (∀ e, Thrown.other "boom" = .errVal e → toError (.other "boom") = e) ∧
    (∀ str, Thrown.other "boom" = .other str →
      toError (.other "boom") = Err.mk "Error" str none) :=
  C2_failure_onFail { onFail := some ⟨1, .ok⟩ } 0 (.other "boom") rfl rfl
    ⟨1, .ok⟩ rfl (by decide)

/-- C4: for a callback that resolves before any enforced timeout, with
an `onAfter` hook supplied, `safeRun` (src/index.ts) resolves, the
`onAfter` hook runs exactly once, and the `onFail` hook never runs. -/
theorem C4_success_after_once (options : SafeRunOptions) (s : Nat)
    (hbeats : beatsTimeout s options.timeoutMs = true)
    (ha : Hook) (hafter : options.onAfter = some ha) :
    (safeRunIndex (.resolves s) options).outcome = .resolved ∧
    hookCallCount .after (safeRunIndex (.resolves s) options).events = 1 ∧
    hookCallCount .fail (safeRunIndex (.resolves s) options).events = 0 := by
  have hrun := safeRunIndex_ok options (.resolves s)
    (awaitIndex_snd_resolves_beats s options.timeoutMs hbeats)
  rw [hrun]
  have a1 := hookCallCount_runHook_ne .after .before options.onBefore none
    (by decide)
  have a2 := hookCallCount_awaitIndex .after (.resolves s) options.timeoutMs
  have a3 := hookCallCount_runHook_self .after ha none
  have a4 := hookCallCount_runHook_ne .after .last options.onLast none
    (by decide)
  have f1 := hookCallCount_runHook_ne .fail .before options.onBefore none
    (by decide)
  have f2 := hookCallCount_awaitIndex .fail (.resolves s) options.timeoutMs
  have f3 := hookCallCount_runHook_ne .fail .after options.onAfter none
    (by decide)
  have f4 := hookCallCount_runHook_ne .fail .last options.onLast none
    (by decide)
  refine ⟨rfl, ?_, ?_⟩
  · simp [hookCallCount_append, a1, a2, a4, hafter, a3]
  · simp [hookCallCount_append, f1, f2, f3, f4]

/-- Witness for C4 at a concrete input: callback resolving at once
under a 100 ms timeout, with all four hooks supplied. -/
theorem C4_success_after_once_witness :
    (safeRunIndex (.resolves 0)
      { onBefore := some ⟨0, .ok⟩, onAfter := some ⟨0, .ok⟩,
        onFail := some ⟨1, .ok⟩, onLast := some ⟨0, .ok⟩,
        timeoutMs := some 100 }).outcome = .resolved ∧
    hookCallCount .after
      (safeRunIndex (.resolves 0)
        { onBefore := some ⟨0, .ok⟩, onAfter := some ⟨0, .ok⟩,
          onFail := some ⟨1, .ok⟩, onLast := some ⟨0, .ok⟩,
          timeoutMs := some 100 }).events = 1 ∧
    hookCallCount .fail
      (safeRunIndex (.resolves 0)
        { onBefore := some ⟨0, .ok⟩, onAfter := some ⟨0, .ok⟩,
          onFail := some ⟨1, .ok⟩, onLast := some ⟨0, .ok⟩,
          timeoutMs := some 100 }).events = 0 :=
  C4_success_after_once
    { onBefore := some ⟨0, .ok⟩, onAfter := some ⟨0, .ok⟩,
      onFail := some ⟨1, .ok⟩, onLast := some ⟨0, .ok⟩,
      timeoutMs := some 100 } 0 (by decide) ⟨0, .ok⟩ rfl

/-- C9: a `timeoutMs` that is absent, zero, or negative disables the
timeout entirely in `safeRun` (src/index.ts): no timer is ever
scheduled, and a callback that resolves at an arbitrarily late time
still leads to a resolved outcome. -/
theorem C9_no_timeout_disabled (cb : CbBehavior) (options : SafeRunOptions)
    (hdis : timeoutActive options.timeoutMs = false) :
    ((safeRunIndex cb options).events.filter isTimerSet = []) ∧
    (∀ s, cb = .resolves s → (safeRunIndex cb options).outcome = .resolved) := by
  constructor
  · cases cb with
    | resolves s =>
      rw [safeRunIndex_ok options (.resolves s)
        (awaitIndex_snd_resolves_beats s options.timeoutMs
          (beatsTimeout_of_inactive s options.timeoutMs hdis))]
      simp [List.filter_append, timerSet_filter_runHook,
        timerSet_filter_awaitIndex_inactive _ _ hdis]
    | rejects s v =>
      rcases hex : options.exitOnFailed.getD false with _ | _
      · rw [safeRunIndex_thrown options (.rejects s v) v
          (awaitIndex_snd_rejects_beats s v options.timeoutMs
            (beatsTimeout_of_inactive s options.timeoutMs hdis)) hex]
        simp [List.filter_append, timerSet_filter_runHook,
          timerSet_filter_awaitIndex_inactive _ _ hdis]
      · rw [safeRunIndex_thrown_exit options (.rejects s v) v
          (awaitIndex_snd_rejects_beats s v options.timeoutMs
            (beatsTimeout_of_inactive s options.timeoutMs hdis)) hex]
        simp [List.filter_append, timerSet_filter_runHook,
          timerSet_filter_awaitIndex_inactive _ _ hdis, isTimerSet,
          List.filter]
    | hangs =>
      rw [safeRunIndex_never options .hangs
        (awaitIndex_snd_never options.timeoutMs hdis)]
      simp [List.filter_append, timerSet_filter_runHook,
        timerSet_filter_awaitIndex_inactive _ _ hdis]
  · intro s hcb
    subst hcb
    rw [safeRunIndex_ok options (.resolves s)
      (awaitIndex_snd_resolves_beats s options.timeoutMs
        (beatsTimeout_of_inactive s options.timeoutMs hdis))]

/-- Witness for C9 at a concrete input: `timeoutMs = 0` and a callback
that only resolves after a million milliseconds. -/
theorem C9_no_timeout_disabled_witness :
    ((safeRunIndex (.resolves 1000000)
        { timeoutMs := some 0 }).events.filter isTimerSet = []) ∧
    (∀ s, CbBehavior.resolves 1000000 = .resolves s →
      (safeRunIndex (.resolves 1000000)
        { timeoutMs := some 0 }).outcome = .resolved) :=
  C9_no_timeout_disabled (.resolves 1000000) { timeoutMs := some 0 } rfl

/-- C3 counterexample: in the `src/command.ts` variant of `safeRun`
(cited by the claim alongside `src/index.ts`), hook errors are NOT
swallowed: an `onBefore` hook that throws turns a callback that would
resolve into a rejection carrying the hook's error — the hook error
propagates to the caller and replaces the main outcome. -/
theorem C3_counterexample :
    (safeRunCommand (.resolves 0)
      { onBefore := some ⟨0, .throws (.errVal ⟨"Error", "hookboom", none⟩)⟩
        : CmdSafeRunOptions }).outcome =
      .rejected (.errVal ⟨"Error", "hookboom", none⟩) ∧
    (safeRunCommand (.resolves 0) ({} : CmdSafeRunOptions)).outcome =
      .resolved :=
  ⟨rfl, rfl⟩

/-- C3 (amended): in `safeRun` from `src/index.ts`, every hook runs
under the `runHook` guard, uniformly for all four hook kinds: the
run's outcome is entirely independent of the hook configuration (so a
throwing hook never propagates to the caller nor replaces the outcome),
and a throwing hook's error is reported via the logging event. (The
`src/command.ts` variant does not guard its hooks; see the
counterexample.) -/
theorem C3_hook_errors_swallowed_index (cb : CbBehavior)
    (b a f l b2 a2 f2 l2 : Option Hook) (eo : Option Bool)
    (ec tm : Option Int) :
    (safeRunIndex cb ⟨b, a, f, l, eo, ec, tm⟩).outcome =
      (safeRunIndex cb ⟨b2, a2, f2, l2, eo, ec, tm⟩).outcome ∧
    (∀ (k : HookKind) (ar : Nat) (v : Thrown) (e : Option Err),
      Event.hookErrLogged k v ∈ runHook k (some ⟨ar, .throws v⟩) e) := by
  refine ⟨safeRunIndex_outcome_hooks_indep cb b a f l b2 a2 f2 l2 eo ec tm, ?_⟩
  intro k ar v e
  simp [runHook]

/-- C5 counterexample: in the `src/command.ts` variant of `safeRun`
(cited by the claim alongside `src/index.ts`), a throwing `onBefore`
hook DOES abort the run: the main callback is never started. -/
theorem C5_counterexample :
    Event.cbStarted ∉
      (safeRunCommand (.resolves 0)
        { onBefore := some ⟨0, .throws (.errVal ⟨"Error", "boom2", none⟩)⟩
          : CmdSafeRunOptions }).events := by
  decide

/-- C5 (amended): in `safeRun` from `src/index.ts`, a throwing
`onBefore` hook does not abort the run: the main callback is still
started, and the outcome is the same as it would have been with no
`onBefore` hook at all. (In the `src/command.ts` variant the
before-hook failure aborts the run; see the counterexample.) -/
theorem C5_onBefore_failure_no_abort (cb : CbBehavior)
    (options : SafeRunOptions) (ar : Nat) (v : Thrown)
    (hb : options.onBefore = some ⟨ar, .throws v⟩) :
    Event.cbStarted ∈ (safeRunIndex cb options).events ∧
    (safeRunIndex cb options).outcome =
      (safeRunIndex cb { options with onBefore := none }).outcome := by
  obtain ⟨b, a, f, l, eo, ec, tm⟩ := options
  exact ⟨cbStarted_mem_safeRunIndex cb _,
    safeRunIndex_outcome_hooks_indep cb b a f l none a f l eo ec tm⟩

/-- Witness for C5 at a concrete input: a throwing `onBefore` hook with
an immediately resolving callback. -/
theorem C5_onBefore_failure_no_abort_witness :
    Event.cbStarted ∈
      (safeRunIndex (.resolves 0)
        { onBefore := some ⟨0, .throws (.other "bboom")⟩ }).events ∧
    (safeRunIndex (.resolves 0)
      { onBefore := some ⟨0, .throws (.other "bboom")⟩ }).outcome =
      (safeRunIndex (.resolves 0)
        { ({ onBefore := some ⟨0, .throws (.other "bboom")⟩ } : SafeRunOptions)
          with onBefore := none }).outcome :=
  C5_onBefore_failure_no_abort (.resolves 0)
    { onBefore := some ⟨0, .throws (.other "bboom")⟩ } 0 (.other "bboom") rfl

/-- C6: on every invocation of `safeRun` (src/index.ts) with
`exitOnFailed` false whose awaited step settles (success, operation
failure, or timeout), a supplied `onLast` hook runs exactly once before
the returned promise settles, and the outcome is the same as with no
`onLast` hook at all — a failure of `onLast` never masks the original
outcome. -/
theorem C6_onLast_exactly_once (cb : CbBehavior) (options : SafeRunOptions)
    (hexit : options.exitOnFailed.getD false = false)
    (hsettle : runSettles cb options.timeoutMs = true)
    (hl : Hook) (hlast : options.onLast = some hl) :
    hookCallCount .last (safeRunIndex cb options).events = 1 ∧
    (safeRunIndex cb options).outcome =
      (safeRunIndex cb { options with onLast := none }).outcome := by
  constructor
  · have hnn := awaitIndex_snd_ne_never cb options.timeoutMs hsettle
    rcases hr : awaitIndex cb options.timeoutMs with ⟨evs, res⟩
    have l1 := hookCallCount_runHook_ne .last .before options.onBefore none
      (by decide)
    have l2 := hookCallCount_awaitIndex .last cb options.timeoutMs
    have l4 := hookCallCount_runHook_self .last hl none
    cases res with
    | ok =>
      rw [safeRunIndex_ok options cb (by rw [hr])]
      have l3 := hookCallCount_runHook_ne .last .after options.onAfter none
        (by decide)
      simp [hookCallCount_append, l1, l2, l3, hlast, l4]
    | thrown v =>
      rw [safeRunIndex_thrown options cb v (by rw [hr]) hexit]
      have l3 := hookCallCount_runHook_ne .last .fail options.onFail
        (some (toError v)) (by decide)
      simp [hookCallCount_append, l1, l2, l3, hlast, l4]
    | never =>
      exact absurd (by rw [hr]) hnn
  · obtain ⟨b, a, f, l, eo, ec, tm⟩ := options
    exact safeRunIndex_outcome_hooks_indep cb b a f l b a f none eo ec tm

/-- Witness for C6 at a concrete input: a rejecting callback, no exit
configuration, and an `onLast` hook that itself throws. -/
theorem C6_onLast_exactly_once_witness :
    hookCallCount .last
      (safeRunIndex (.rejects 0 (.other "mainboom"))
        { onLast := some ⟨0, .throws (.other "lastboom")⟩ }).events = 1 ∧
    (safeRunIndex (.rejects 0 (.other "mainboom"))
      { onLast := some ⟨0, .throws (.other "lastboom")⟩ }).outcome =
      (safeRunIndex (.rejects 0 (.other "mainboom"))
        { ({ onLast := some ⟨0, .throws (.other "lastboom")⟩ }
            : SafeRunOptions) with onLast := none }).outcome :=
  C6_onLast_exactly_once (.rejects 0 (.other "mainboom"))
    { onLast := some ⟨0, .throws (.other "lastboom")⟩ } rfl rfl
    ⟨0, .throws (.other "lastboom")⟩ rfl

/-- C8: when the callback fails (it rejects before any enforced
timeout, or misses an enforced timeout) and `exitOnFailed` is true,
`safeRun` (src/index.ts) invokes `process.exit` with the configured
`exitFailCode` (defaulting to 1 when not supplied); the exit is the
final observable event — in particular it comes after the `onFail`
hook, which has run exactly once — and the outcome is the process
exit: the promise neither resolves nor rejects. -/
theorem C8_exit_on_failure (cb : CbBehavior) (options : SafeRunOptions)
    (hfails : cbFailsBeforeTimeout cb options.timeoutMs = true ∨
      ∃ t, options.timeoutMs = some t ∧ t > 0 ∧ cbMissesTimeout cb t = true)
    (hexit : options.exitOnFailed.getD false = true) :
    (safeRunIndex cb options).outcome =
      .exited (options.exitFailCode.getD 1) ∧
    (safeRunIndex cb options).events.getLast? =
      some (Event.exitCalled (options.exitFailCode.getD 1)) ∧
    (∀ hfk : Hook, options.onFail = some hfk →
      hookCallCount .fail (safeRunIndex cb options).events = 1) := by
  obtain ⟨v, hth⟩ : ∃ v, (awaitIndex cb options.timeoutMs).2 = .thrown v := by
    rcases hfails with h1 | ⟨t, ht, hpos, hmiss⟩
    · cases cb with
      | resolves s => simp [cbFailsBeforeTimeout] at h1
      | rejects s v =>
        exact ⟨v, awaitIndex_snd_rejects_beats s v options.timeoutMs
          (by simpa [cbFailsBeforeTimeout] using h1)⟩
      | hangs => simp [cbFailsBeforeTimeout] at h1
    · exact ⟨.errVal (timeoutError t),
        by rw [ht]; exact awaitIndex_snd_misses cb t hpos hmiss⟩
  rw [safeRunIndex_thrown_exit options cb v hth hexit]
  refine ⟨rfl, ?_, ?_⟩
  · exact List.getLast?_append_cons _ _ _
  · intro hfk hfkeq
    have g1 := hookCallCount_runHook_ne .fail .before options.onBefore none
      (by decide)
    have g2 := hookCallCount_awaitIndex .fail cb options.timeoutMs
    have g3 := hookCallCount_runHook_self .fail hfk (some (toError v))
    simp [hookCallCount_append, g1, g2, hfkeq, g3,
      hookCallCount_cons_exitCalled, hookCallCount_nil]

/-- Witness for C8 at a concrete input: a rejecting callback with
`exitOnFailed = true`, `exitFailCode` omitted (so it defaults to 1),
and an `onFail` hook supplied. -/
theorem C8_exit_on_failure_witness :
    (safeRunIndex (.rejects 0 (.other "fatal"))
      { onFail := some ⟨1, .ok⟩, exitOnFailed := some true }).outcome =
      .exited ((none : Option Int).getD 1) ∧
    (safeRunIndex (.rejects 0 (.other "fatal"))
      { onFail := some ⟨1, .ok⟩, exitOnFailed := some true }).events.getLast? =
      some (Event.exitCalled ((none : Option Int).getD 1)) ∧
    (∀ hfk : Hook,
      ({ onFail := some ⟨1, .ok⟩, exitOnFailed := some true }
        : SafeRunOptions).onFail = some hfk →
      hookCallCount .fail
        (safeRunIndex (.rejects 0 (.other "fatal"))
          { onFail := some ⟨1, .ok⟩,
            exitOnFailed := some true }).events = 1) :=
  C8_exit_on_failure (.rejects 0 (.other "fatal"))
    { onFail := some ⟨1, .ok⟩, exitOnFailed := some true }
    (Or.inl rfl) rfl

/-! ### Path lemmas for the `src/command.ts` runner -/

theorem awaitCmd_fst_pos (cb : CbBehavior) (t : Int) (hpos : t > 0) :
    (awaitCmd cb (some t)).1 =
      [Event.timerSet t, Event.cbStarted, Event.timerCleared t] := by
  cases cb with
  | resolves s =>
    simp only [awaitCmd, hpos, if_true]
    split <;> rfl
  | rejects s v =>
    simp only [awaitCmd, hpos, if_true]
    split <;> rfl
  | hangs => simp [awaitCmd, hpos]

theorem awaitCmd_fst_inactive (cb : CbBehavior) (tms : Option Int)
    (h : timeoutActive tms = false) :
    (awaitCmd cb tms).1 = [Event.cbStarted] := by
  rcases tms with _ | t
  · cases cb <;> rfl
  · have hpos : ¬ t > 0 := by simpa [timeoutActive] using h
    cases cb <;> simp [awaitCmd, hpos]

theorem awaitCmd_timer_cleared (cb : CbBehavior) (tms : Option Int)
    (t : Int) (hset : Event.timerSet t ∈ (awaitCmd cb tms).1) :
    Event.timerCleared t ∈ (awaitCmd cb tms).1 := by
  rcases tms with _ | t2
  · rw [awaitCmd_fst_inactive cb none rfl] at hset
    simp at hset
  · by_cases hpos : t2 > 0
    · rw [awaitCmd_fst_pos cb t2 hpos] at hset ⊢
      simp at hset
      simp [hset]
    · rw [awaitCmd_fst_inactive cb (some t2)
        (by simp [timeoutActive]; omega)] at hset
      simp at hset

theorem cmdCatch_timerPending (options : CmdSafeRunOptions)
    (pre : List Event) (v : Thrown) :
    (cmdCatch options pre v).timerPending = false := by
  rcases hf : options.onFail with _ | ⟨ar, b⟩
  · simp only [cmdCatch, hf]
    split <;> rfl
  · cases b with
    | ok =>
      simp only [cmdCatch, hf]
      split <;> rfl
    | throws hv => simp [cmdCatch, hf]

theorem cmdCatch_events_eq (options : CmdSafeRunOptions) (pre : List Event)
    (v : Thrown) :
    (cmdCatch options pre v).events = pre ++ (cmdCatch options [] v).events := by
  rcases hf : options.onFail with _ | ⟨ar, b⟩
  · simp only [cmdCatch, hf]
    split <;> simp
  · cases b with
    | ok =>
      simp only [cmdCatch, hf]
      split <;> simp
    | throws hv => simp [cmdCatch, hf]

theorem timerSet_not_mem_cmdCatch (options : CmdSafeRunOptions)
    (v : Thrown) (t : Int) :
    Event.timerSet t ∉ (cmdCatch options [] v).events := by
  rcases hf : options.onFail with _ | ⟨ar, b⟩
  · simp only [cmdCatch, hf]
    split <;> simp
  · cases b with
    | ok =>
      simp only [cmdCatch, hf]
      split <;> simp
    | throws hv => simp [cmdCatch, hf]

theorem safeRunCommand_timerPending (cb : CbBehavior)
    (options : CmdSafeRunOptions) :
    (safeRunCommand cb options).timerPending = false := by
  rcases hb : options.onBefore with _ | ⟨ar, bb⟩
  · rcases hr : awaitCmd cb options.timeoutMs with ⟨evs, res⟩
    cases res with
    | never => simp [safeRunCommand, hb, hr]
    | thrown v => simp [safeRunCommand, hb, hr, cmdCatch_timerPending]
    | ok =>
      rcases ha : options.onAfter with _ | ⟨ar2, ba⟩
      · simp [safeRunCommand, hb, hr, ha]
      · cases ba <;>
          simp [safeRunCommand, hb, hr, ha, cmdCatch_timerPending]
  · cases bb with
    | ok =>
      rcases hr : awaitCmd cb options.timeoutMs with ⟨evs, res⟩
      cases res with
      | never => simp [safeRunCommand, hb, hr]
      | thrown v => simp [safeRunCommand, hb, hr, cmdCatch_timerPending]
      | ok =>
        rcases ha : options.onAfter with _ | ⟨ar2, ba⟩
        · simp [safeRunCommand, hb, hr, ha]
        · cases ba <;>
            simp [safeRunCommand, hb, hr, ha, cmdCatch_timerPending]
    | throws v => simp [safeRunCommand, hb, cmdCatch_timerPending]

/-- Events of the `src/command.ts` runner decompose as: either no timer
is ever scheduled, or the race subtrace (which clears its own timer)
sits between timer-free segments. -/
theorem safeRunCommand_events_shape (cb : CbBehavior)
    (options : CmdSafeRunOptions) :
    (∀ t, Event.timerSet t ∉ (safeRunCommand cb options).events) ∨
    ∃ A B, (safeRunCommand cb options).events =
        A ++ ((awaitCmd cb options.timeoutMs).1 ++ B) ∧
      (∀ t, Event.timerSet t ∉ A) ∧ (∀ t, Event.timerSet t ∉ B) := by
  rcases hb : options.onBefore with _ | ⟨ar, bb⟩
  · rcases hr : awaitCmd cb options.timeoutMs with ⟨evs, res⟩
    cases res with
    | never =>
      right
      exact ⟨[], [], by simp [safeRunCommand, hb, hr], by simp, by simp⟩
    | thrown v =>
      right
      refine ⟨[], (cmdCatch options [] v).events, ?_, by simp, ?_⟩
      · simp only [safeRunCommand, hb, hr]
        rw [cmdCatch_events_eq]
        simp
      · intro t
        exact timerSet_not_mem_cmdCatch options v t
    | ok =>
      rcases ha : options.onAfter with _ | ⟨ar2, ba⟩
      · right
        exact ⟨[], [], by simp [safeRunCommand, hb, hr, ha], by simp, by simp⟩
      · cases ba with
        | ok =>
          right
          refine ⟨[], [Event.hookCalled .after none],
            by simp [safeRunCommand, hb, hr, ha], by simp, by simp⟩
        | throws v2 =>
          right
          refine ⟨[], [Event.hookCalled .after none] ++
            (cmdCatch options [] v2).events, ?_, by simp, ?_⟩
          · simp only [safeRunCommand, hb, hr, ha]
            rw [cmdCatch_events_eq]
            simp
          · intro t
            simp [timerSet_not_mem_cmdCatch options v2 t]
  · cases bb with
    | ok =>
      rcases hr : awaitCmd cb options.timeoutMs with ⟨evs, res⟩
      cases res with
      | never =>
        right
        exact ⟨[Event.hookCalled .before none], [],
          by simp [safeRunCommand, hb, hr], by simp, by simp⟩
      | thrown v =>
        right
        refine ⟨[Event.hookCalled .before none],
          (cmdCatch options [] v).events, ?_, by simp, ?_⟩
        · simp only [safeRunCommand, hb, hr]
          rw [cmdCatch_events_eq]
          simp
        · intro t
          exact timerSet_not_mem_cmdCatch options v t
      | ok =>
        rcases ha : options.onAfter with _ | ⟨ar2, ba⟩
        · right
          exact ⟨[Event.hookCalled .before none], [],
            by simp [safeRunCommand, hb, hr, ha], by simp, by simp⟩
        · cases ba with
          | ok =>
            right
            refine ⟨[Event.hookCalled .before none],
              [Event.hookCalled .after none],
              by simp [safeRunCommand, hb, hr, ha], by simp, by simp⟩
          | throws v2 =>
            right
            refine ⟨[Event.hookCalled .before none],
              [Event.hookCalled .after none] ++
                (cmdCatch options [] v2).events, ?_, by simp, ?_⟩
            · simp only [safeRunCommand, hb, hr, ha]
              rw [cmdCatch_events_eq]
              simp
            · intro t
              simp [timerSet_not_mem_cmdCatch options v2 t]
    | throws v =>
      left
      intro t
      simp only [safeRunCommand, hb]
      rw [cmdCatch_events_eq]
      intro hmem
      rcases List.mem_append.1 hmem with h1 | h2
      · simp at h1
      · exact timerSet_not_mem_cmdCatch options v t h2

/-- C7 counterexample: in `safeRun` from `src/index.ts` (cited by the
claim), the timer is NOT cleared when the callback completes before it
fires: with a 50 ms timeout and an immediately resolving callback, the
scheduled timer is still pending when `safeRun` returns and no
`clearTimeout` call is ever observed. -/
theorem C7_counterexample :
    (safeRunIndex (.resolves 0) { timeoutMs := some 50 }).timerPending =
      true ∧
    Event.timerCleared 50 ∉
      (safeRunIndex (.resolves 0) { timeoutMs := some 50 }).events := by
  decide

/-- C7 (amended): in the `src/command.ts` variant of `safeRun`, every
scheduled timeout timer is cleared before the call settles: whenever
the trace records the timer being set, it also records it being
cleared, and no timer is left pending. (The `src/index.ts` variant
never clears its timer; see the counterexample.) -/
theorem C7_timer_cleared_command (cb : CbBehavior)
    (options : CmdSafeRunOptions) (t : Int)
    (hset : Event.timerSet t ∈ (safeRunCommand cb options).events) :
    Event.timerCleared t ∈ (safeRunCommand cb options).events ∧
    (safeRunCommand cb options).timerPending = false := by
  refine ⟨?_, safeRunCommand_timerPending cb options⟩
  rcases safeRunCommand_events_shape cb options with hnone | ⟨A, B, hE, hA, hB⟩
  · exact absurd hset (hnone t)
  · rw [hE] at hset ⊢
    rcases List.mem_append.1 hset with h1 | h2
    · exact absurd h1 (hA t)
    · rcases List.mem_append.1 h2 with h3 | h4
      · have hc := awaitCmd_timer_cleared cb options.timeoutMs t h3
        simp [List.mem_append, hc]
      · exact absurd h4 (hB t)

/-- Witness for C7 at a concrete input: a 50 ms timeout with an
immediately resolving callback in the `src/command.ts` runner. -/
theorem C7_timer_cleared_command_witness :
    Event.timerCleared 50 ∈
      (safeRunCommand (.resolves 0)
        ({ timeoutMs := some 50 } : CmdSafeRunOptions)).events ∧
    (safeRunCommand (.resolves 0)
      ({ timeoutMs := some 50 } : CmdSafeRunOptions)).timerPending = false :=
  C7_timer_cleared_command (.resolves 0) { timeoutMs := some 50 } 50
    (by decide)

/-! ### Helpers for comparing the two runners -/

theorem awaitCmd_snd_eq (cb : CbBehavior) (tms : Option Int) :
    (awaitCmd cb tms).2 = (awaitIndex cb tms).2 := by
  rcases tms with _ | t
  · cases cb <;> rfl
  · by_cases hpos : t > 0
    · cases cb with
      | resolves s =>
        by_cases hs : (s : Int) < t <;>
          simp [awaitCmd, awaitIndex, hpos, hs]
      | rejects s v =>
        by_cases hs : (s : Int) < t <;>
          simp [awaitCmd, awaitIndex, hpos, hs]
      | hangs => simp [awaitCmd, awaitIndex, hpos]
    · cases cb <;> simp [awaitCmd, awaitIndex, hpos]

theorem hookObs_append (a b : List Event) :
    hookObs (a ++ b) = hookObs a ++ hookObs b := by
  simp [hookObs, List.filter_append]

theorem hookObs_nil : hookObs [] = [] := rfl

theorem hookObs_cons_hookCalled (k : HookKind) (arg : Option Err)
    (l : List Event) :
    hookObs (Event.hookCalled k arg :: l) =
      Event.hookCalled k arg :: hookObs l := by
  simp [hookObs, List.filter, isHookOrExit]

theorem hookObs_cons_exitCalled (c : Int) (l : List Event) :
    hookObs (Event.exitCalled c :: l) = Event.exitCalled c :: hookObs l := by
  simp [hookObs, List.filter, isHookOrExit]

theorem hookObs_runHook_none (k : HookKind) (e : Option Err) :
    hookObs (runHook k none e) = [] := rfl

theorem hookObs_runHook_ok_noErr (k : HookKind) (ar : Nat) :
    hookObs (runHook k (some ⟨ar, .ok⟩) none) =
      [Event.hookCalled k none] := rfl

theorem hookObs_runHook_ok_succ (k : HookKind) (ar : Nat) (e : Err) :
    hookObs (runHook k (some ⟨ar + 1, .ok⟩) (some e)) =
      [Event.hookCalled k (some e)] := by
  simp [runHook, hookObs, isHookOrExit, List.filter]

theorem hookObs_awaitIndex (cb : CbBehavior) (tms : Option Int) :
    hookObs (awaitIndex cb tms).1 = [] := by
  rcases tms with _ | t
  · cases cb <;> rfl
  · by_cases hpos : t > 0
    · cases cb with
      | resolves s =>
        by_cases hs : (s : Int) < t <;>
          simp [awaitIndex, hpos, hs, hookObs, isHookOrExit, List.filter]
      | rejects s v =>
        by_cases hs : (s : Int) < t <;>
          simp [awaitIndex, hpos, hs, hookObs, isHookOrExit, List.filter]
      | hangs =>
        simp [awaitIndex, hpos, hookObs, isHookOrExit, List.filter]
    · cases cb <;>
        simp [awaitIndex, hpos, hookObs, isHookOrExit, List.filter]

theorem hookObs_awaitCmd (cb : CbBehavior) (tms : Option Int) :
    hookObs (awaitCmd cb tms).1 = [] := by
  rcases tms with _ | t
  · cases cb <;> rfl
  · by_cases hpos : t > 0
    · cases cb with
      | resolves s =>
        by_cases hs : (s : Int) < t <;>
          simp [awaitCmd, hpos, hs, hookObs, isHookOrExit, List.filter]
      | rejects s v =>
        by_cases hs : (s : Int) < t <;>
          simp [awaitCmd, hpos, hs, hookObs, isHookOrExit, List.filter]
      | hangs =>
        simp [awaitCmd, hpos, hookObs, isHookOrExit, List.filter]
    · cases cb <;>
        simp [awaitCmd, hpos, hookObs, isHookOrExit, List.filter]

/-- C10 counterexample: the two `safeRun` implementations are NOT
behaviorally equivalent. On a configuration expressible to both (an
`onBefore` hook that throws, callback resolving at once, defaults
otherwise), the `src/index.ts` runner resolves while the
`src/command.ts` runner rejects with the hook's error. -/
theorem C10_counterexample :
    (safeRunIndex (.resolves 0)
      { onBefore := some ⟨0, .throws (.errVal ⟨"Error", "pre", none⟩)⟩
        : SafeRunOptions }).outcome = .resolved ∧
    (safeRunCommand (.resolves 0)
      { onBefore := some ⟨0, .throws (.errVal ⟨"Error", "pre", none⟩)⟩
        : CmdSafeRunOptions }).outcome =
      .rejected (.errVal ⟨"Error", "pre", none⟩) ∧
    (safeRunIndex (.resolves 0)
      { onBefore := some ⟨0, .throws (.errVal ⟨"Error", "pre", none⟩)⟩
        : SafeRunOptions }).outcome ≠
    (safeRunCommand (.resolves 0)
      { onBefore := some ⟨0, .throws (.errVal ⟨"Error", "pre", none⟩)⟩
        : CmdSafeRunOptions }).outcome := by
  refine ⟨rfl, rfl, ?_⟩
  decide

/-- C10 (amended): the two `safeRun` implementations agree on every
configuration in which the supplied hooks all succeed (each of
`onBefore`, `onAfter` is absent or an ok hook, `onFail` is absent or an
ok hook declaring an error parameter, and no `onLast` is supplied):
for every callback behaviour they produce the same outcome and the
same sequence of hook invocations and process-exit calls. They diverge
when a hook throws (see the counterexample). -/
theorem C10_equiv_ok_hooks (cb : CbBehavior)
    (b a f : Option Hook) (eo : Option Bool) (ec tm : Option Int)
    (hb : b = none ∨ ∃ ar, b = some ⟨ar, .ok⟩)
    (ha : a = none ∨ ∃ ar, a = some ⟨ar, .ok⟩)
    (hf : f = none ∨ ∃ ar, f = some ⟨ar + 1, .ok⟩) :
    (safeRunIndex cb ⟨b, a, f, none, eo, ec, tm⟩).outcome =
      (safeRunCommand cb ⟨b, a, f, eo, ec, tm⟩).outcome ∧
    hookObs (safeRunIndex cb ⟨b, a, f, none, eo, ec, tm⟩).events =
      hookObs (safeRunCommand cb ⟨b, a, f, eo, ec, tm⟩).events := by
  rcases hrc : awaitCmd cb tm with ⟨cevs, cres⟩
  have hsnd : (awaitIndex cb tm).2 = cres := by
    rw [← awaitCmd_snd_eq cb tm, hrc]
  have hobsI := hookObs_awaitIndex cb tm
  have hobsC : hookObs cevs = [] := by
    have h0 := hookObs_awaitCmd cb tm
    rw [hrc] at h0
    exact h0
  rcases hb with hb | ⟨arb, hb⟩ <;> subst hb <;>
    rcases ha with ha | ⟨ara, ha⟩ <;> subst ha <;>
      rcases hf with hf | ⟨arf, hf⟩ <;> subst hf <;>
        cases cres <;>
          first
            | (rw [safeRunIndex_ok _ cb hsnd]
               simp [safeRunCommand, cmdCatch, hrc, hookObs_append,
                 hookObs_nil, hobsI, hobsC, hookObs_cons_hookCalled,
                 hookObs_cons_exitCalled, hookObs_runHook_none,
                 hookObs_runHook_ok_noErr, hookObs_runHook_ok_succ])
            | (rw [safeRunIndex_never _ cb hsnd]
               simp [safeRunCommand, cmdCatch, hrc, hookObs_append,
                 hookObs_nil, hobsI, hobsC, hookObs_cons_hookCalled,
                 hookObs_cons_exitCalled, hookObs_runHook_none,
                 hookObs_runHook_ok_noErr, hookObs_runHook_ok_succ])
            | (cases hex : eo.getD false <;>
                first
                  | (rw [safeRunIndex_thrown _ cb _ hsnd hex]
                     simp [safeRunCommand, cmdCatch, hrc, hex,
                       hookObs_append, hookObs_nil, hobsI, hobsC,
                       hookObs_cons_hookCalled, hookObs_cons_exitCalled,
                       hookObs_runHook_none, hookObs_runHook_ok_noErr,
                       hookObs_runHook_ok_succ])
                  | (rw [safeRunIndex_thrown_exit _ cb _ hsnd hex]
                     simp [safeRunCommand, cmdCatch, hrc, hex,
                       hookObs_append, hookObs_nil, hobsI, hobsC,
                       hookObs_cons_hookCalled, hookObs_cons_exitCalled,
                       hookObs_runHook_none, hookObs_runHook_ok_noErr,
                       hookObs_runHook_ok_succ]))

/-- Witness for C10 at a concrete hook configuration: an ok `onBefore`
of arity 0, no `onAfter`, an ok `onFail` of arity 1, exit on failure
enabled with code 2, and a 30 ms timeout. -/
theorem C10_equiv_ok_hooks_witness :
    (safeRunIndex .hangs
      ⟨some ⟨0, .ok⟩, none, some ⟨1, .ok⟩, none, some true, some 2,
        some 30⟩).outcome =
      (safeRunCommand .hangs
        ⟨some ⟨0, .ok⟩, none, some ⟨1, .ok⟩, some true, some 2,
          some 30⟩).outcome ∧
    hookObs (safeRunIndex .hangs
      ⟨some ⟨0, .ok⟩, none, some ⟨1, .ok⟩, none, some true, some 2,
        some 30⟩).events =
      hookObs (safeRunCommand .hangs
        ⟨some ⟨0, .ok⟩, none, some ⟨1, .ok⟩, some true, some 2,
          some 30⟩).events :=
  C10_equiv_ok_hooks .hangs (some ⟨0, .ok⟩) none (some ⟨1, .ok⟩)
    (some true) (some 2) (some 30)
    (Or.inr ⟨0, rfl⟩) (Or.inl rfl) (Or.inr ⟨0, rfl⟩)

end NodeScriptUtils
